import Mathlib

set_option maxHeartbeats 1000000

/-!
Shallow embedding of `src/espeasydownloadrobot.py` (EspEasyDownloadRobot).

Strings are modelled as lists of characters (`Str`), HTTP response bodies as
`Str`.  The network is an oracle indexed by the number of HTTP requests made
so far.  An uncaught Python exception is modelled by `Except.error` carrying
the state (side effects performed so far); a normal value by `Except.ok`.
-/

abbrev Str := List Char

/-- The fixed manifest of ESPEasy resources (`DOWNLOAD_FILES` in the source). -/
def DOWNLOAD_FILES : List Str :=
  ["json".toList, "config.dat".toList, "security.dat".toList, "rules1.txt".toList,
   "rules2.txt".toList, "rules3.txt".toList, "rules4.txt".toList, "esp.css".toList,
   "notification.dat".toList]

/-- Character class `[0-9]` of the dnsmasq-leases regex. -/
def isDigitC (c : Char) : Bool := '0' ≤ c && c ≤ '9'

/-- Character class `[a-f0-9:]` (the MAC field of the dnsmasq-leases regex). -/
def isMacC (c : Char) : Bool := ('a' ≤ c && c ≤ 'f') || isDigitC c || c = ':'

/-- Character class `[0-9.]` (the address field of the dnsmasq-leases regex). -/
def isIpC (c : Char) : Bool := isDigitC c || c = '.'

/-- Split a line at every single space character, keeping empty tokens. -/
def splitSp : Str → List Str
  | [] => [[]]
  | c :: cs =>
    match splitSp cs with
    | [] => [[]]
    | t :: ts => if c = ' ' then [] :: t :: ts else (c :: t) :: ts

/-- One line matched against the source regex
`^[0-9]{10} [a-f0-9:]{17} ([0-9.]{7,15}) ([^ ]+) \*$`.
None of the five fields may contain a space, so a line matches the regex iff it
splits into exactly five space-separated tokens of the given shapes; on a match
the captured `(address, identifier)` pair is returned, on a mismatch `none`
(in the source, `m.groups()` on `None` raises `AttributeError`). -/
def parseLeaseLine (line : Str) : Option (Str × Str) :=
  match splitSp line with
  | [t, mac, ip, host, star] =>
    if t.length = 10 ∧ t.all isDigitC ∧ mac.length = 17 ∧ mac.all isMacC ∧
       7 ≤ ip.length ∧ ip.length ≤ 15 ∧ ip.all isIpC ∧
       host ≠ [] ∧ star = ['*']
    then some (ip, host) else none
  | _ => none

/-- The parsing loop of `get_ips_from_leases_live` (source lines 98-102): each
line is matched against the regex; on a non-matching line `m.groups()` raises
(modelled as `none`, aborting the whole parse); pairs whose hostname starts
with `ESP-` are collected in source order, others are skipped silently. -/
def collectLeases : List Str → Option (List (Str × Str))
  | [] => some []
  | line :: rest =>
    match parseLeaseLine line with
    | none => none
    | some p =>
      match collectLeases rest with
      | none => none
      | some ps =>
        some (if ("ESP-".toList).isPrefixOf p.2 then p :: ps else ps)

/-- Model of `get_ips_from_leases_live` (source lines 92-103): when the HTTP GET of the
lease feed is not successful (`req.ok` false) the parsing loop is skipped and
the empty list is returned; otherwise the response lines are parsed. -/
def get_ips_from_leases_live (ok : Bool) (lines : List Str) :
    Option (List (Str × Str)) :=
  if ok then collectLeases lines else some []

/-- Outcome of the `requests.head` liveness probe (source line 159).
`connectTimeout` is `requests.exceptions.ConnectTimeout`, the only exception
class caught by the source; `otherError` is any other transport exception
raised by `requests.head` (e.g. a refused connection or a read timeout). -/
inductive HeadOutcome
  | ok
  | notOk
  | connectTimeout
  | otherError
deriving DecidableEq, Repr

/-- Outcome of one `requests.get` (source line 173): either a response (with
its `r.ok` flag and raw body `r.content`) or a raised transport exception. -/
inductive GetOutcome
  | response (rok : Bool) (content : Str)
  | transportError
deriving DecidableEq, Repr

/-- The network as an oracle: the outcome of the n-th HTTP request of the run
(HEAD probes and resource GETs share one counter). -/
structure Net where
  head : Nat → HeadOutcome
  get : Nat → GetOutcome

/-- Observable events of a run, in chronological order. -/
inductive Event
  | skipExisting (ip : Str)
  | headReq (ip : Str) (outcome : HeadOutcome)
  | getReq (ip : Str) (file : Str) (outcome : GetOutcome)
  | removed (ip : Str)
  | slept
deriving DecidableEq, Repr

/-- The filesystem: zip archives by file name, each a list of
(entry name, entry content) pairs in the order they were written. -/
abbrev FS := List (Str × List (Str × Str))

/-- Program state: the `todo` work queue, the filesystem, the number of HTTP
requests made so far, and the event trace. -/
structure RobotState where
  todo : List Str
  fs : FS
  calls : Nat
  trace : List Event
deriving Repr

/-- Model of `os.path.exists` on an archive name. -/
def fsExists (fs : FS) (name : Str) : Bool :=
  fs.any (fun p => p.1 = name)

/-- Contents of an archive, `none` when the file does not exist. -/
def fsGet : FS → Str → Option (List (Str × Str))
  | [], _ => none
  | (n, es) :: rest, name => if n = name then some es else fsGet rest name

/-- Model of `zipfile.ZipFile(name, "a").writestr e.1 e.2`: append one named entry to an
archive, creating the archive when it does not exist yet. -/
def fsAppendEntry : FS → Str → Str × Str → FS
  | [], name, e => [(name, [e])]
  | (n, es) :: rest, name, e =>
    if n = name then (n, es ++ [e]) :: rest
    else (n, es) :: fsAppendEntry rest name e

/-- Model of `dict(ips_hostnames)[key]` (source line 145): later pairs overwrite earlier
ones, so lookup returns the hostname of the last pair with the given address;
`none` models a `KeyError`. -/
def dictLookup (pairs : List (Str × Str)) (key : Str) : Option Str :=
  pairs.foldl (fun acc p => if p.1 = key then some p.2 else acc) none

/-- Model of `"%s_%s.zip" % (ip.replace(".", "-"), hostname)` (source line 148). -/
def archive_filename (ip host : Str) : Str :=
  ip.map (fun c => if c = '.' then '-' else c) ++ "_".toList ++ host ++ ".zip".toList

/-- The raw body written to the archive for one GET outcome. -/
def getContent : GetOutcome → Str
  | .response _ content => content
  | .transportError => []

/-- The per-resource download loop (source lines 168-176): one GET per manifest
name; the raw body is written to the archive regardless of `r.ok`; a transport
exception closes the zip (entries written so far persist on disk) and
propagates out of `main` (`.error`). -/
def downloadFiles (net : Net) (ip aname : Str) :
    List Str → RobotState → Except RobotState RobotState
  | [], s => .ok s
  | f :: rest, s =>
    match net.get s.calls with
    | .transportError =>
      .error { s with calls := s.calls + 1,
                      trace := s.trace ++ [.getReq ip f .transportError] }
    | .response rok content =>
      downloadFiles net ip aname rest
        { s with fs := fsAppendEntry s.fs aname (f, content),
                 calls := s.calls + 1,
                 trace := s.trace ++ [.getReq ip f (.response rok content)] }

/-- The body of `for ip in todo` (source lines 147-179): look up the hostname,
skip-and-remove when the archive file already exists, else probe with HEAD
(only `ConnectTimeout` is caught; `not r.ok` removes the target; any other
transport exception propagates), and on a live target download every manifest
resource into the archive and remove the target from the queue. -/
def processIp (net : Net) (pairs : List (Str × Str)) (ip : Str) (s : RobotState) :
    Except RobotState RobotState :=
  match dictLookup pairs ip with
  | none => .error s
  | some host =>
    if fsExists s.fs (archive_filename ip host) then
      .ok { s with todo := s.todo.erase ip,
                   trace := s.trace ++ [.skipExisting ip, .removed ip] }
    else
      match net.head s.calls with
      | .connectTimeout =>
        .ok { s with calls := s.calls + 1,
                     trace := s.trace ++ [.headReq ip .connectTimeout] }
      | .otherError =>
        .error { s with calls := s.calls + 1,
                        trace := s.trace ++ [.headReq ip .otherError] }
      | .notOk =>
        .ok { s with todo := s.todo.erase ip, calls := s.calls + 1,
                     trace := s.trace ++ [.headReq ip .notOk, .removed ip] }
      | .ok =>
        match downloadFiles net ip (archive_filename ip host) DOWNLOAD_FILES
            { s with calls := s.calls + 1,
                     trace := s.trace ++ [.headReq ip .ok] } with
        | .error s2 => .error s2
        | .ok s2 => .ok { s2 with todo := s2.todo.erase ip,
                                  trace := s2.trace ++ [.removed ip] }

/-- CPython iteration over a list is by index over the live list, so in-place
removals shift later elements left under the iterator.  `fuel` bounds the
number of iterations; since the index grows at every step and the queue never
grows, `s.todo.length` iterations always suffice (see `runPass`). -/
def runPassAux (net : Net) (pairs : List (Str × Str)) :
    Nat → RobotState → Nat → Except RobotState RobotState
  | 0, s, _ => .ok s
  | fuel + 1, s, i =>
    if h : i < s.todo.length then
      match processIp net pairs (s.todo.get ⟨i, h⟩) s with
      | .error s1 => .error s1
      | .ok s1 => runPassAux net pairs fuel s1 (i + 1)
    else .ok s

/-- One full `for ip in todo` pass (source lines 147-179). -/
def runPass (net : Net) (pairs : List (Str × Str)) (s : RobotState) :
    Except RobotState RobotState :=
  runPassAux net pairs s.todo.length s 0

/-- The `while len(todo) > 0` loop (source lines 146-181): test the queue, run
a pass, then `time.sleep(15)` unconditionally, and re-test.  `.ok` models
`return 0`; `none` means the fuel ran out (the loop may run forever by
design). -/
def runLoop (net : Net) (pairs : List (Str × Str)) :
    Nat → RobotState → Option (Except RobotState RobotState)
  | 0, _ => none
  | fuel + 1, s =>
    if s.todo.isEmpty then some (.ok s)
    else
      match runPass net pairs s with
      | .error s1 => some (.error s1)
      | .ok s1 => runLoop net pairs fuel { s1 with trace := s1.trace ++ [.slept] }

/-- Result of `main` from the lease fetch onward. -/
inductive MainResult
  | leaseCrash
  | crashed (s : RobotState)
  | exit0 (s : RobotState)
  | fuelOut
deriving Repr

/-- Model of `main` from the lease fetch onward (source lines 140-183): parse the lease
feed (an `AttributeError` there aborts before the loop), build `todo` and
`ip2hostname`, then run the scheduling loop on an initially empty trace. -/
def mainRun (net : Net) (leasesOk : Bool) (lines : List Str) (fs0 : FS)
    (fuel : Nat) : MainResult :=
  match get_ips_from_leases_live leasesOk lines with
  | none => .leaseCrash
  | some pairs =>
    match runLoop net pairs fuel ⟨pairs.map Prod.fst, fs0, 0, []⟩ with
    | none => .fuelOut
    | some (.error s) => .crashed s
    | some (.ok s) => .exit0 s

/-- The state carried by either outcome of a pass (normal or crashed). -/
def stateOf : Except RobotState RobotState → RobotState
  | .ok s => s
  | .error s => s

/-- Events that examine target `ip`: the archive-existence check, the liveness
probe, a resource GET, or the removal from the queue. -/
def touchesIp (ip : Str) : Event → Bool
  | .skipExisting j => j == ip
  | .headReq j _ => j == ip
  | .getReq j _ _ => j == ip
  | .removed j => j == ip
  | .slept => false

/-- Probe or fetch events aimed at target `ip` (HTTP HEAD or GET). -/
def probesIp (ip : Str) : Event → Bool
  | .headReq j _ => j == ip
  | .getReq j _ _ => j == ip
  | _ => false

/-- The archive entries written by a completed download loop starting at HTTP
request counter `c`: one entry per manifest name, in manifest order, whose
content is the raw body of the corresponding GET. -/
def fetchedEntries (net : Net) (c : Nat) : List Str → List (Str × Str)
  | [] => []
  | f :: rest => (f, getContent (net.get c)) :: fetchedEntries net (c + 1) rest

/-! ### Lease-parser lemmas -/

/-- A successful parse of the whole feed returns exactly the captured pairs of
the regex-matching lines whose identifier starts with `ESP-`, in source order,
duplicates retained. -/
lemma collectLeases_some (lines : List Str) :
    ∀ ps, collectLeases lines = some ps →
      ps = (lines.filterMap parseLeaseLine).filter
        (fun p => ("ESP-".toList).isPrefixOf p.2) := by
  induction lines with
  | nil =>
    intro ps h
    simp only [collectLeases, Option.some.injEq] at h
    simp [← h]
  | cons l ls ih =>
    intro ps h
    simp only [collectLeases] at h
    cases hp : parseLeaseLine l with
    | none => rw [hp] at h; exact absurd h (by simp)
    | some p =>
      rw [hp] at h
      cases hr : collectLeases ls with
      | none => rw [hr] at h; exact absurd h (by simp)
      | some ps0 =>
        rw [hr] at h
        simp only [Option.some.injEq] at h
        have h0 := ih ps0 hr
        rw [List.filterMap_cons, hp, List.filter_cons]
        subst h0
        rw [← h]

/-- When every line matches the regex, the whole parse succeeds. -/
lemma collectLeases_isSome (lines : List Str)
    (h : ∀ l ∈ lines, (parseLeaseLine l).isSome = true) :
    (collectLeases lines).isSome = true := by
  induction lines with
  | nil => rfl
  | cons l ls ih =>
    have hl := h l (by simp)
    obtain ⟨p, hp⟩ := Option.isSome_iff_exists.mp hl
    have hr := ih (fun x hx => h x (List.mem_cons_of_mem _ hx))
    obtain ⟨ps, hps⟩ := Option.isSome_iff_exists.mp hr
    simp [collectLeases, hp, hps]

/-- A line the regex rejects anywhere in the feed aborts the whole parse. -/
lemma collectLeases_none_of_bad (lines : List Str) (l : Str)
    (hmem : l ∈ lines) (hbad : parseLeaseLine l = none) :
    collectLeases lines = none := by
  induction lines with
  | nil => cases hmem
  | cons a ls ih =>
    rcases List.mem_cons.mp hmem with h1 | h2
    · subst h1; simp [collectLeases, hbad]
    · simp only [collectLeases]
      cases hp : parseLeaseLine a with
      | none => rfl
      | some p => rw [ih h2]

/-! ### Claim C5 -/

/-- C5: for every well-formed lease feed (every line matches the regex), the
lease parser returns exactly the (address, identifier) pairs of the lines
whose identifier begins with `ESP-`, in source order, with duplicates
retained; all non-matching identifiers are discarded silently. -/
theorem c5_parser_exact (lines : List Str)
    (h : ∀ l ∈ lines, (parseLeaseLine l).isSome = true) :
    get_ips_from_leases_live true lines =
      some ((lines.filterMap parseLeaseLine).filter
        (fun p => ("ESP-".toList).isPrefixOf p.2)) := by
  obtain ⟨ps, hps⟩ := Option.isSome_iff_exists.mp (collectLeases_isSome lines h)
  rw [get_ips_from_leases_live, if_pos rfl, hps, collectLeases_some lines ps hps]

/-- Witness for C5: a feed with two identical `ESP-` lines (duplicate address)
and one `OTHER-` line parses to the two `ESP-` pairs, in order, with the
duplicate retained and the other line silently dropped. -/
theorem c5_witness :
    get_ips_from_leases_live true
      ["1111111111 aa:bb:cc:dd:ee:ff 10.0.0.7 ESP-X *".toList,
       "2222222222 11:22:33:44:55:66 10.0.0.8 OTHER-Y *".toList,
       "1111111111 aa:bb:cc:dd:ee:ff 10.0.0.7 ESP-X *".toList] =
      some [("10.0.0.7".toList, "ESP-X".toList),
            ("10.0.0.7".toList, "ESP-X".toList)] :=
  (c5_parser_exact _ (by decide)).trans (by decide)

/-! ### Claim C8 -/

/-- A lowercase hex digit. -/
def isHexL (c : Char) : Bool := ('a' ≤ c && c ≤ 'f') || isDigitC c

/-- Modelled from the spec: "MAC as six lowercase hex octets" — six two-digit
lowercase hex groups separated by colons.  The source implements the MAC field
with the looser regex class `[a-f0-9:]{17}`, which this definition is compared
against. -/
def specMacOctets : Str → Bool
  | [a, b, ':', c, d, ':', e, f, ':', g, h1, ':', i, j, ':', k, l] =>
    [a, b, c, d, e, f, g, h1, i, j, k, l].all isHexL
  | _ => false

/-- Modelled from the spec: the expected lease-line grammar of §4.1 —
`<timestamp> <mac> <address> <identifier> *`, space-separated, with the MAC as
six lowercase hex octets.  The non-MAC fields follow the same shapes as the
source regex, so the only difference is the MAC-field structure. -/
def specExpectedLineGrammar (line : Str) : Bool :=
  match splitSp line with
  | [t, mac, ip, host, star] =>
    decide (t.length = 10) && t.all isDigitC && specMacOctets mac &&
    decide (7 ≤ ip.length) && decide (ip.length ≤ 15) && ip.all isIpC &&
    !host.isEmpty && decide (star = ['*'])
  | _ => false

/-- Counterexample to C8 as stated: the line
`1111111111 aaaaaaaaaaaaaaaaa 10.0.0.9 OTHER-X *` does not match the expected
grammar (its MAC field is seventeen `a`s, not six colon-separated octets), yet
lease parsing does not raise: the line matches the source's looser regex
`[a-f0-9:]{17}` and is then silently discarded because its identifier does not
start with `ESP-`, so the parse returns an empty list instead of aborting. -/
theorem c8_counterexample :
    specExpectedLineGrammar
        "1111111111 aaaaaaaaaaaaaaaaa 10.0.0.9 OTHER-X *".toList = false ∧
    get_ips_from_leases_live true
        ["1111111111 aaaaaaaaaaaaaaaaa 10.0.0.9 OTHER-X *".toList] = some [] :=
  ⟨by decide, by decide⟩

/-- C8 amended: a line that does not match the parser's regex
`^[0-9]{10} [a-f0-9:]{17} ([0-9.]{7,15}) ([^ ]+) \*$` — a strictly looser
pattern than the spec's "six lowercase hex octets" MAC shape — makes lease
parsing raise an error that aborts the whole run, even if the line's
identifier would not have matched the `ESP-` prefix; lines matching the
looser regex but not the strict octet shape are accepted, not errors. -/
theorem c8_regex_reject_fatal (lines : List Str) (l : Str)
    (hmem : l ∈ lines) (hbad : parseLeaseLine l = none) :
    get_ips_from_leases_live true lines = none := by
  rw [get_ips_from_leases_live, if_pos rfl,
    collectLeases_none_of_bad lines l hmem hbad]

/-- Witness for C8 amended: a feed whose second line has a `z` in the MAC
field is rejected by the regex and aborts the parse, although its identifier
`OTHER-Y` would not have matched the prefix anyway. -/
theorem c8_witness :
    get_ips_from_leases_live true
      ["1111111111 aa:bb:cc:dd:ee:ff 10.0.0.7 ESP-X *".toList,
       "2222222222 zz:bb:cc:dd:ee:ff 10.0.0.8 OTHER-Y *".toList] = none :=
  c8_regex_reject_fatal _
    "2222222222 zz:bb:cc:dd:ee:ff 10.0.0.8 OTHER-Y *".toList
    (by decide) (by decide)

/-! ### Claim C10 -/

/-- C10: if the HTTP GET of the lease feed returns a non-success response, the
lease parser returns an empty list without raising, the work queue is empty,
the loop body never runs (no probe, no fetch, no sleep), no archive is
created, and `main` returns 0. -/
theorem c10_leases_not_ok (net : Net) (lines : List Str) (fs0 : FS)
    (fuel : Nat) :
    mainRun net false lines fs0 (fuel + 1) = .exit0 ⟨[], fs0, 0, []⟩ := rfl

/-! ### Concrete fixtures for counterexamples and witnesses -/

def cIpA : Str := "10.0.0.1".toList

def cHostA : Str := "ESP-A".toList

def cIpB : Str := "10.0.0.2".toList

def cHostB : Str := "ESP-B".toList

/-- A network on which every probe times out and every GET would raise. -/
def netQuiet : Net := ⟨fun _ => .connectTimeout, fun _ => .transportError⟩

/-- A network on which the probe raises a transport exception that is not a
`ConnectTimeout` (e.g. a refused connection). -/
def netRefused : Net := ⟨fun _ => .otherError, fun _ => .transportError⟩

def cPairsA : List (Str × Str) := [(cIpA, cHostA)]

def cPairsAB : List (Str × Str) := [(cIpA, cHostA), (cIpB, cHostB)]

/-- A filesystem already holding target A's archive. -/
def cFsA : FS := [(archive_filename cIpA cHostA, [])]

def cStartA : RobotState := ⟨[cIpA], [], 0, []⟩

def cStartAB : RobotState := ⟨[cIpA, cIpB], cFsA, 0, []⟩

/-! ### Queue-shape lemmas for the pass loop -/

/-- The download loop never touches the work queue. -/
lemma downloadFiles_todo (net : Net) (ip an : Str) :
    ∀ (files : List Str) (s : RobotState),
      (stateOf (downloadFiles net ip an files s)).todo = s.todo := by
  intro files
  induction files with
  | nil => intro s; rfl
  | cons f rest ih =>
    intro s
    simp only [downloadFiles]
    cases hnet : net.get s.calls with
    | transportError => rfl
    | response b c => exact ih _

/-- One loop-body execution leaves the queue a subsequence of what it was:
it either leaves it unchanged or erases the first occurrence of the examined
address. -/
lemma processIp_todo_sub (net : Net) (pairs : List (Str × Str)) (j : Str)
    (s : RobotState) :
    (stateOf (processIp net pairs j s)).todo.Sublist s.todo := by
  unfold processIp
  split
  next => exact List.Sublist.refl _
  next host heq =>
    split
    next => exact List.erase_sublist _ _
    next hex =>
      split
      next => exact List.Sublist.refl _
      next => exact List.Sublist.refl _
      next => exact List.erase_sublist _ _
      next hhead =>
        split
        next s2 hdl =>
          have h2 := downloadFiles_todo net j (archive_filename j host)
            DOWNLOAD_FILES
            { s with calls := s.calls + 1, trace := s.trace ++ [.headReq j .ok] }
          rw [hdl] at h2
          have h3 : s2.todo = s.todo := h2
          show s2.todo.Sublist s.todo
          rw [h3]
        next s2 hdl =>
          have h2 := downloadFiles_todo net j (archive_filename j host)
            DOWNLOAD_FILES
            { s with calls := s.calls + 1, trace := s.trace ++ [.headReq j .ok] }
          rw [hdl] at h2
          have h3 : s2.todo = s.todo := h2
          show (s2.todo.erase j).Sublist s.todo
          rw [h3]
          exact List.erase_sublist _ _

/-- Across a whole pass the queue only loses elements. -/
lemma runPassAux_todo_sub (net : Net) (pairs : List (Str × Str)) :
    ∀ (fuel : Nat) (s : RobotState) (i : Nat),
      (stateOf (runPassAux net pairs fuel s i)).todo.Sublist s.todo := by
  intro fuel
  induction fuel with
  | zero => intro s i; exact List.Sublist.refl _
  | succ n ih =>
    intro s i
    simp only [runPassAux]
    by_cases h : i < s.todo.length
    · rw [dif_pos h]
      cases hp : processIp net pairs (s.todo.get ⟨i, h⟩) s with
      | error s1 =>
        have h1 := processIp_todo_sub net pairs (s.todo.get ⟨i, h⟩) s
        rw [hp] at h1
        exact h1
      | ok s1 =>
        have h1 := processIp_todo_sub net pairs (s.todo.get ⟨i, h⟩) s
        rw [hp] at h1
        exact (ih s1 (i + 1)).trans h1
    · rw [dif_neg h]
      exact List.Sublist.refl _

/-! ### Claim C1 -/

/-- Counterexample to C1 as stated: with queue `[A, B]` and A's archive already
on disk, the pass removes A from the live list while iterating over it, the
iterator index moves past the shifted B, and the pass ends with B still queued
but never examined (no existence check, probe, fetch, or removal event for B):
the loop does not iterate over a stable snapshot. -/
theorem c1_counterexample :
    runPass netQuiet cPairsAB cStartAB =
      .ok ⟨[cIpB], cFsA, 0, [.skipExisting cIpA, .removed cIpA]⟩ ∧
    cIpB ∈ cStartAB.todo ∧
    ([Event.skipExisting cIpA, Event.removed cIpA].any (touchesIp cIpB))
      = false :=
  ⟨rfl, by decide, by decide⟩

/-- C1 amended: the pass iterates over the live queue by index, not over a
snapshot, so a removal shifts later targets left and the target that moves
into the removed slot is skipped for the remainder of that pass; skipped
targets are not dropped — the queue at the end of a pass (normal or crashed)
is a subsequence of the queue at its start, so every skipped target remains
queued for a later pass. -/
theorem c1_pass_queue_subsequence (net : Net) (pairs : List (Str × Str))
    (s : RobotState) (r : Except RobotState RobotState)
    (h : runPass net pairs s = r) :
    (stateOf r).todo.Sublist s.todo := by
  rw [← h]
  exact runPassAux_todo_sub net pairs s.todo.length s 0

/-- Witness for C1 amended: the pass of the counterexample ends with queue
`[B]`, a subsequence of the starting queue `[A, B]`. -/
theorem c1_witness : ([cIpB] : List Str).Sublist cStartAB.todo :=
  c1_pass_queue_subsequence netQuiet cPairsAB cStartAB
    (.ok ⟨[cIpB], cFsA, 0, [.skipExisting cIpA, .removed cIpA]⟩) rfl

/-! ### Claim C2 -/

/-- Counterexample to C2 as stated: a transport exception on the HEAD probe
that is not a `ConnectTimeout` (e.g. a refused connection) is not caught —
the loop body raises and the process terminates (`.error`), with the target
still queued. -/
theorem c2_counterexample :
    runLoop netRefused cPairsA 1 cStartA =
      some (.error ⟨[cIpA], [], 1, [.headReq cIpA .otherError]⟩) := rfl

/-- C2 amended: only `requests.exceptions.ConnectTimeout` on the HEAD probe is
caught and treated as "not yet reachable" — the target stays in the queue and
neither queue nor filesystem changes; any other transport exception on the
probe propagates and terminates the process. -/
theorem c2_connect_timeout_caught (net : Net) (pairs : List (Str × Str))
    (ip host : Str) (s : RobotState)
    (hd : dictLookup pairs ip = some host)
    (hex : fsExists s.fs (archive_filename ip host) = false)
    (ht : net.head s.calls = .connectTimeout) :
    processIp net pairs ip s =
      .ok { s with calls := s.calls + 1,
                   trace := s.trace ++ [.headReq ip .connectTimeout] } := by
  simp [processIp, hd, hex, ht]

/-- Witness for C2 amended: on a timing-out probe the single target stays
queued with no filesystem change. -/
theorem c2_witness :
    processIp netQuiet cPairsA cIpA cStartA =
      .ok ⟨[cIpA], [], 1, [.headReq cIpA .connectTimeout]⟩ :=
  c2_connect_timeout_caught netQuiet cPairsA cIpA cHostA cStartA
    (by decide) rfl rfl

/-! ### Claim C9 -/

/-- Counterexample to C9 as stated: with a single already-archived target the
first pass drains the queue, yet the loop still sleeps the fixed interval
(`slept` after the final `removed`) before re-testing the queue and
returning 0. -/
theorem c9_counterexample :
    runLoop netQuiet cPairsA 2 ⟨[cIpA], cFsA, 0, []⟩ =
      some (.ok ⟨[], cFsA, 0,
        [.skipExisting cIpA, .removed cIpA, .slept]⟩) := rfl

/-- C9 amended: the loop returns exit status 0 exactly when the queue is
empty — a normal return implies an empty queue, and an empty queue returns at
once — but the fixed 15-second sleep happens after every full pass,
including the pass that drains the queue. -/
theorem c9_exit_and_sleep :
    (∀ (net : Net) (pairs : List (Str × Str)) (fuel : Nat) (s s1 : RobotState),
        runLoop net pairs fuel s = some (.ok s1) → s1.todo = []) ∧
    (∀ (net : Net) (pairs : List (Str × Str)) (fuel : Nat) (s : RobotState),
        s.todo = [] → runLoop net pairs (fuel + 1) s = some (.ok s)) ∧
    (∀ (net : Net) (pairs : List (Str × Str)) (fuel : Nat) (s s1 : RobotState),
        s.todo ≠ [] → runPass net pairs s = .ok s1 →
        runLoop net pairs (fuel + 1) s =
          runLoop net pairs fuel { s1 with trace := s1.trace ++ [.slept] }) := by
  refine ⟨?_, ?_, ?_⟩
  · intro net pairs fuel
    induction fuel with
    | zero => intro s s1 h; exact absurd h (by simp [runLoop])
    | succ n ih =>
      intro s s1 h
      simp only [runLoop] at h
      by_cases he : s.todo.isEmpty = true
      · rw [if_pos he] at h
        simp only [Option.some.injEq, Except.ok.injEq] at h
        rw [← h]
        exact List.isEmpty_iff.mp he
      · rw [if_neg he] at h
        cases hp : runPass net pairs s with
        | error s2 => rw [hp] at h; exact absurd h (by simp)
        | ok s2 => rw [hp] at h; exact ih _ s1 h
  · intro net pairs fuel s hs
    simp [runLoop, hs]
  · intro net pairs fuel s s1 hne hp
    simp only [runLoop]
    rw [if_neg (by simpa using hne), hp]

/-- Witness for C9 amended: the drained final state of the counterexample run
has an empty queue, and stepping the loop once on the non-empty start state
is the same as continuing after the pass with `slept` appended. -/
theorem c9_witness :
    (⟨[], cFsA, 0, [Event.skipExisting cIpA, Event.removed cIpA,
        Event.slept]⟩ : RobotState).todo = [] ∧
    runLoop netQuiet cPairsA 2 ⟨[cIpA], cFsA, 0, []⟩ =
      runLoop netQuiet cPairsA 1
        ⟨[], cFsA, 0, [Event.skipExisting cIpA, Event.removed cIpA,
          Event.slept]⟩ :=
  ⟨c9_exit_and_sleep.1 netQuiet cPairsA 2 ⟨[cIpA], cFsA, 0, []⟩ _ rfl,
   c9_exit_and_sleep.2.2 netQuiet cPairsA 1 ⟨[cIpA], cFsA, 0, []⟩
     ⟨[], cFsA, 0, [Event.skipExisting cIpA, Event.removed cIpA]⟩
     (by decide) rfl⟩

/-! ### Filesystem lemmas -/

/-- Appending an entry to an archive appends it to that archive's entry list
(creating the file when absent). -/
lemma fsGet_fsAppendEntry_same (name : Str) (e : Str × Str) :
    ∀ fs : FS, fsGet (fsAppendEntry fs name e) name
      = some ((fsGet fs name).getD [] ++ [e]) := by
  intro fs
  induction fs with
  | nil => simp [fsAppendEntry, fsGet]
  | cons p rest ih =>
    obtain ⟨n, es⟩ := p
    by_cases hn : n = name
    · simp [fsAppendEntry, fsGet, hn]
    · simp [fsAppendEntry, fsGet, hn, ih]

/-- Existence check `os.path.exists` agrees with archive lookup. -/
lemma fsExists_eq_isSome (n : Str) :
    ∀ fs : FS, fsExists fs n = (fsGet fs n).isSome := by
  intro fs
  induction fs with
  | nil => rfl
  | cons p rest ih =>
    obtain ⟨m, es⟩ := p
    by_cases hm : m = n
    · simp [fsExists, fsGet, hm]
    · simp [fsExists, fsGet, hm, List.any_cons]
      rw [← ih]
      rfl

/-- Writing an entry never deletes an existing file. -/
lemma fsExists_fsAppendEntry_mono (name n : Str) (e : Str × Str) :
    ∀ fs : FS, fsExists fs n = true →
      fsExists (fsAppendEntry fs name e) n = true := by
  intro fs
  induction fs with
  | nil => intro h; exact absurd h (by simp [fsExists])
  | cons p rest ih =>
    obtain ⟨m, es⟩ := p
    intro h
    simp only [fsExists, List.any_cons, Bool.or_eq_true] at h
    by_cases hmn : m = name
    · simp only [fsAppendEntry, if_pos hmn]
      simp only [fsExists, List.any_cons, Bool.or_eq_true]
      exact h
    · simp only [fsAppendEntry, if_neg hmn]
      simp only [fsExists, List.any_cons, Bool.or_eq_true]
      rcases h with h | h
      · exact Or.inl h
      · exact Or.inr (ih h)

/-! ### Download-loop lemmas -/

/-- The entry names of a completed download are the manifest names in order. -/
lemma fetchedEntries_names (net : Net) :
    ∀ (files : List Str) (c : Nat),
      (fetchedEntries net c files).map Prod.fst = files
  | [], _ => rfl
  | f :: rest, c => by
    simp [fetchedEntries, fetchedEntries_names net rest (c + 1)]

/-- When no GET of the loop raises a transport exception, the download loop
returns normally: the queue is untouched, one request is made per manifest
name, and the target archive ends holding its prior entries followed by one
entry per file, in order, each holding the raw response body. -/
lemma downloadFiles_responds (net : Net) (j an : Str) :
    ∀ (files : List Str) (s : RobotState),
      (∀ k, k < files.length → net.get (s.calls + k) ≠ .transportError) →
      ∃ s2, downloadFiles net j an files s = .ok s2 ∧
        s2.todo = s.todo ∧
        s2.calls = s.calls + files.length ∧
        (∀ es, fsGet s.fs an = some es →
          fsGet s2.fs an = some (es ++ fetchedEntries net s.calls files)) ∧
        (fsGet s.fs an = none → files ≠ [] →
          fsGet s2.fs an = some (fetchedEntries net s.calls files)) := by
  intro files
  induction files with
  | nil =>
    intro s hr
    refine ⟨s, rfl, rfl, by simp, ?_, ?_⟩
    · intro es hes; simpa [fetchedEntries] using hes
    · intro _ hne; exact absurd rfl hne
  | cons f rest ih =>
    intro s hr
    have h0 : net.get (s.calls + 0) ≠ .transportError := hr 0 (by simp)
    rw [Nat.add_zero] at h0
    cases ho : net.get s.calls with
    | transportError => exact absurd ho h0
    | response b c =>
      have hr1 : ∀ k, k < rest.length →
          net.get (s.calls + 1 + k) ≠ .transportError := by
        intro k hk
        have h2 := hr (k + 1) (by simp only [List.length_cons]; omega)
        rw [show s.calls + (k + 1) = s.calls + 1 + k from by omega] at h2
        exact h2
      obtain ⟨s2, hdl, htodo, hcalls, hsome, hnone⟩ := ih
        { s with fs := fsAppendEntry s.fs an (f, c), calls := s.calls + 1,
                 trace := s.trace ++ [.getReq j f (.response b c)] } hr1
      refine ⟨s2, ?_, ?_, ?_, ?_, ?_⟩
      · simp only [downloadFiles]
        rw [ho]
        exact hdl
      · exact htodo
      · have h3 : s2.calls = s.calls + 1 + rest.length := hcalls
        simp only [List.length_cons]
        omega
      · intro es hes
        have hfs1 : fsGet (fsAppendEntry s.fs an (f, c)) an
            = some (es ++ [(f, c)]) := by
          rw [fsGet_fsAppendEntry_same, hes]
          rfl
        have h4 := hsome (es ++ [(f, c)]) hfs1
        simp only [fetchedEntries, ho, getContent]
        rw [h4]
        simp
      · intro hnon hne
        have hfs1 : fsGet (fsAppendEntry s.fs an (f, c)) an
            = some [(f, c)] := by
          rw [fsGet_fsAppendEntry_same, hnon]
          rfl
        have h4 := hsome [(f, c)] hfs1
        simp only [fetchedEntries, ho, getContent]
        rw [h4]
        simp

/-- A confirmed-live target with a fresh archive completes retrieval: the
loop body returns normally, the first occurrence of the target is removed
from the queue, and the archive holds exactly the fetched entries. -/
lemma processIp_retrieval (net : Net) (pairs : List (Str × Str))
    (ip host : Str) (s : RobotState)
    (hd : dictLookup pairs ip = some host)
    (hg : fsGet s.fs (archive_filename ip host) = none)
    (hh : net.head s.calls = .ok)
    (hr : ∀ k, k < DOWNLOAD_FILES.length →
        net.get (s.calls + 1 + k) ≠ .transportError) :
    ∃ s3, processIp net pairs ip s = .ok s3 ∧
      s3.todo = s.todo.erase ip ∧
      fsGet s3.fs (archive_filename ip host) =
        some (fetchedEntries net (s.calls + 1) DOWNLOAD_FILES) := by
  have hex : fsExists s.fs (archive_filename ip host) = false := by
    rw [fsExists_eq_isSome, hg]
    rfl
  obtain ⟨s2, hdl, htodo, hcalls, hsome, hnone⟩ :=
    downloadFiles_responds net ip (archive_filename ip host) DOWNLOAD_FILES
      { s with calls := s.calls + 1,
               trace := s.trace ++ [Event.headReq ip .ok] } hr
  refine ⟨{ s2 with todo := s2.todo.erase ip, trace := s2.trace ++ [Event.removed ip] }, ?_, ?_, ?_⟩
  · simp [processIp, hd, hex, hh, hdl]
  · have h3 : s2.todo = s.todo := htodo
    show s2.todo.erase ip = s.todo.erase ip
    rw [h3]
  · show fsGet s2.fs (archive_filename ip host) = _
    exact hnone hg (by decide)

/-! ### Claim C6 -/

/-- A live network: the probe succeeds and every GET returns a success body. -/
def netLive : Net := ⟨fun _ => .ok, fun _ => .response true "content".toList⟩

/-- A live network on which the second resource GET returns a non-success
response with an error body, and all others succeed. -/
def netHalf : Net :=
  ⟨fun _ => .ok,
   fun k => if k = 2 then .response false "Not Found".toList
            else .response true ['d']⟩

/-- A live network on which the third resource GET raises a transport
exception. -/
def netDrop : Net :=
  ⟨fun _ => .ok,
   fun k => if k < 3 then .response true ['x'] else .transportError⟩

/-- C6: for every target whose retrieval runs to completion (the probe
succeeds and no GET raises), the produced archive is the file named
`archive_filename ip host` — `<address-with-dots-as-dashes>_<identifier>.zip`
— and contains exactly one entry per manifest resource, in manifest order,
each entry named exactly by the resource name used in the request URL and
holding the raw response body (`fetchedEntries`), regardless of the
individual responses' success flags. -/
theorem c6_archive_complete (net : Net) (pairs : List (Str × Str))
    (ip host : Str) (s : RobotState)
    (hd : dictLookup pairs ip = some host)
    (hg : fsGet s.fs (archive_filename ip host) = none)
    (hh : net.head s.calls = .ok)
    (hr : ∀ k, k < DOWNLOAD_FILES.length →
        net.get (s.calls + 1 + k) ≠ .transportError) :
    ∃ s3, processIp net pairs ip s = .ok s3 ∧
      fsGet s3.fs (archive_filename ip host) =
        some (fetchedEntries net (s.calls + 1) DOWNLOAD_FILES) ∧
      (fetchedEntries net (s.calls + 1) DOWNLOAD_FILES).map Prod.fst
        = DOWNLOAD_FILES ∧
      (fetchedEntries net (s.calls + 1) DOWNLOAD_FILES).length
        = DOWNLOAD_FILES.length := by
  obtain ⟨s3, h1, h2, h3⟩ := processIp_retrieval net pairs ip host s hd hg hh hr
  refine ⟨s3, h1, h3, fetchedEntries_names net DOWNLOAD_FILES (s.calls + 1), ?_⟩
  have h4 := congrArg List.length (fetchedEntries_names net DOWNLOAD_FILES (s.calls + 1))
  simpa using h4

/-- Witness for C6: a full retrieval on `netLive` produces the archive
`10-0-0-1_ESP-A.zip` with the nine manifest entries in order. -/
theorem c6_witness :
    (∃ s3, processIp netLive cPairsA cIpA cStartA = .ok s3 ∧
      fsGet s3.fs (archive_filename cIpA cHostA) =
        some (fetchedEntries netLive (cStartA.calls + 1) DOWNLOAD_FILES) ∧
      (fetchedEntries netLive (cStartA.calls + 1) DOWNLOAD_FILES).map Prod.fst
        = DOWNLOAD_FILES ∧
      (fetchedEntries netLive (cStartA.calls + 1) DOWNLOAD_FILES).length
        = DOWNLOAD_FILES.length) ∧
    archive_filename cIpA cHostA = "10-0-0-1_ESP-A.zip".toList :=
  ⟨c6_archive_complete netLive cPairsA cIpA cHostA cStartA (by decide) rfl rfl
    (by decide), by decide⟩

/-! ### Claim C3 -/

/-- Counterexample to C3 as stated: on `netDrop` the third resource GET
raises a transport exception; the exception is not caught, so the remaining
six manifest resources are never fetched, the target is not removed from the
queue, and the whole process terminates with only the first two entries
persisted in the archive. -/
theorem c3_counterexample :
    runLoop netDrop cPairsA 1 cStartA =
      some (.error ⟨[cIpA],
        [(archive_filename cIpA cHostA,
          [("json".toList, ['x']), ("config.dat".toList, ['x'])])],
        4,
        [.headReq cIpA .ok,
         .getReq cIpA "json".toList (.response true ['x']),
         .getReq cIpA "config.dat".toList (.response true ['x']),
         .getReq cIpA "security.dat".toList .transportError]⟩) := rfl

/-- C3 amended: a non-success HTTP response for one resource does not abort
the target's retrieval — every manifest resource is still requested, whatever
content each response carried is written to the archive under that resource's
name, and the target is removed from the queue (no hypothesis below
constrains the responses' success flags); but a transport error on a resource
GET propagates and aborts the run (see the counterexample). -/
theorem c3_response_failures_nonfatal (net : Net) (pairs : List (Str × Str))
    (ip host : Str) (s : RobotState)
    (hd : dictLookup pairs ip = some host)
    (hg : fsGet s.fs (archive_filename ip host) = none)
    (hh : net.head s.calls = .ok)
    (hr : ∀ k, k < DOWNLOAD_FILES.length →
        net.get (s.calls + 1 + k) ≠ .transportError) :
    ∃ s3, processIp net pairs ip s = .ok s3 ∧
      s3.todo = s.todo.erase ip ∧
      fsGet s3.fs (archive_filename ip host) =
        some (fetchedEntries net (s.calls + 1) DOWNLOAD_FILES) ∧
      (fetchedEntries net (s.calls + 1) DOWNLOAD_FILES).length
        = DOWNLOAD_FILES.length := by
  obtain ⟨s3, h1, h2, h3⟩ := processIp_retrieval net pairs ip host s hd hg hh hr
  refine ⟨s3, h1, h2, h3, ?_⟩
  have h4 := congrArg List.length (fetchedEntries_names net DOWNLOAD_FILES (s.calls + 1))
  simpa using h4

/-- Witness for C3 amended: on `netHalf` the `config.dat` GET returns a
non-success "Not Found" response, yet retrieval completes, the error body is
written under `config.dat`, and the target leaves the queue. -/
theorem c3_witness :
    (∃ s3, processIp netHalf cPairsA cIpA cStartA = .ok s3 ∧
      s3.todo = cStartA.todo.erase cIpA ∧
      fsGet s3.fs (archive_filename cIpA cHostA) =
        some (fetchedEntries netHalf (cStartA.calls + 1) DOWNLOAD_FILES) ∧
      (fetchedEntries netHalf (cStartA.calls + 1) DOWNLOAD_FILES).length
        = DOWNLOAD_FILES.length) ∧
    (fetchedEntries netHalf (cStartA.calls + 1) DOWNLOAD_FILES).get?  1
      = some ("config.dat".toList, "Not Found".toList) :=
  ⟨c3_response_failures_nonfatal netHalf cPairsA cIpA cHostA cStartA
    (by decide) rfl rfl (by decide), by decide⟩

/-! ### Claim C4 -/

def cDupFeed : List Str :=
  ["1111111111 aa:bb:cc:dd:ee:ff 10.0.0.7 ESP-X *".toList,
   "1111111111 aa:bb:cc:dd:ee:ff 10.0.0.7 ESP-X *".toList]

def cDupPairs : List (Str × Str) :=
  [("10.0.0.7".toList, "ESP-X".toList), ("10.0.0.7".toList, "ESP-X".toList)]

/-- Counterexample to C4 as stated: a lease feed with two records for address
`10.0.0.7` yields that address twice in the parsed pairs, hence twice in the
work queue `pairs.map Prod.fst` built by `main` — not at most once per run. -/
theorem c4_counterexample :
    get_ips_from_leases_live true cDupFeed = some cDupPairs ∧
    (((get_ips_from_leases_live true cDupFeed).getD []).map
        Prod.fst).count "10.0.0.7".toList = 2 :=
  ⟨by decide, by decide⟩

/-- Multiplicity of an address among the retained pairs. -/
lemma countFst_filter (ip : Str) :
    ∀ X : List (Str × Str),
      ((X.filter (fun p => ("ESP-".toList).isPrefixOf p.2)).map
          Prod.fst).count ip
        = (X.filter (fun p => decide (p.1 = ip)
            && ("ESP-".toList).isPrefixOf p.2)).length := by
  intro X
  induction X with
  | nil => rfl
  | cons p rest ih =>
    rw [List.filter_cons, List.filter_cons]
    by_cases hq : ("ESP-".toList).isPrefixOf p.2 = true
    · rw [if_pos hq]
      by_cases hip : p.1 = ip
      · rw [if_pos (by simp only [hip, hq]; simp)]
        rw [List.map_cons, List.count_cons, ih, List.length_cons]
        simp [hip]
      · rw [if_neg (fun hcon =>
          hip (of_decide_eq_true ((Bool.and_eq_true _ _).mp hcon).1))]
        rw [List.map_cons, List.count_cons, ih]
        simp [hip]
    · rw [if_neg hq, if_neg (fun hcon => hq ((Bool.and_eq_true _ _).mp hcon).2)]
      exact ih

/-- C4 amended: a target address appears in the work queue once per matching
lease line (duplicate addresses in the feed are retained, so an address can
be queued more than once); and whenever one loop-body execution changes the
queue it removes exactly the first occurrence of the examined address, and
only under one of three conditions — the archive already exists, the probe
got a definitive non-success response, or the probe succeeded and retrieval
ran to completion. -/
theorem c4_queue_multiplicity_and_removal :
    (∀ (lines : List Str) (ps : List (Str × Str)) (ip : Str),
        get_ips_from_leases_live true lines = some ps →
        (ps.map Prod.fst).count ip =
          ((lines.filterMap parseLeaseLine).filter
            (fun p => decide (p.1 = ip)
              && ("ESP-".toList).isPrefixOf p.2)).length) ∧
    (∀ (net : Net) (pairs : List (Str × Str)) (ip : Str) (s s3 : RobotState),
        processIp net pairs ip s = .ok s3 → s3.todo ≠ s.todo →
        s3.todo = s.todo.erase ip ∧
        ∃ host, dictLookup pairs ip = some host ∧
          (fsExists s.fs (archive_filename ip host) = true ∨
           (fsExists s.fs (archive_filename ip host) = false ∧
             net.head s.calls = .notOk) ∨
           (fsExists s.fs (archive_filename ip host) = false ∧
             net.head s.calls = .ok))) := by
  constructor
  · intro lines ps ip h
    rw [get_ips_from_leases_live, if_pos rfl] at h
    rw [collectLeases_some lines ps h]
    exact countFst_filter ip _
  · intro net pairs ip s s3 hok hne
    unfold processIp at hok
    split at hok
    · exact absurd hok (by simp)
    next host heq =>
      split at hok
      next hex =>
        simp only [Except.ok.injEq] at hok
        refine ⟨?_, host, heq, Or.inl hex⟩
        rw [← hok]
      next hex =>
        have hexf : fsExists s.fs (archive_filename ip host) = false :=
          Bool.not_eq_true _ ▸ Bool.of_not_eq_true hex
        split at hok
        · simp only [Except.ok.injEq] at hok
          exact absurd (by rw [← hok]) hne
        · exact absurd hok (by simp)
        next hh =>
          simp only [Except.ok.injEq] at hok
          refine ⟨?_, host, heq, Or.inr (Or.inl ⟨hexf, hh⟩)⟩
          rw [← hok]
        next hh =>
          split at hok
          · exact absurd hok (by simp)
          next s2 hdl =>
            simp only [Except.ok.injEq] at hok
            have h2 := downloadFiles_todo net ip (archive_filename ip host)
              DOWNLOAD_FILES
              { s with calls := s.calls + 1,
                       trace := s.trace ++ [.headReq ip .ok] }
            rw [hdl] at h2
            have h3 : s2.todo = s.todo := h2
            refine ⟨?_, host, heq, Or.inr (Or.inr ⟨hexf, hh⟩)⟩
            rw [← hok]
            show s2.todo.erase ip = s.todo.erase ip
            rw [h3]

/-- Witness for C4 amended: on the duplicate feed the address `10.0.0.7` is
counted once per matching line (twice); and a concrete queue-changing
loop-body execution (archive already present) removes the first occurrence
and is justified by one of the three conditions. -/
theorem c4_witness :
    ((cDupPairs.map Prod.fst).count "10.0.0.7".toList =
      ((cDupFeed.filterMap parseLeaseLine).filter
        (fun p => decide (p.1 = "10.0.0.7".toList)
          && ("ESP-".toList).isPrefixOf p.2)).length) ∧
    (([] : List Str) = [cIpA].erase cIpA ∧
      ∃ host, dictLookup cPairsA cIpA = some host ∧
        (fsExists cFsA (archive_filename cIpA host) = true ∨
         (fsExists cFsA (archive_filename cIpA host) = false ∧
           netQuiet.head 0 = .notOk) ∨
         (fsExists cFsA (archive_filename cIpA host) = false ∧
           netQuiet.head 0 = .ok))) :=
  ⟨c4_queue_multiplicity_and_removal.1 cDupFeed cDupPairs "10.0.0.7".toList
      (by decide),
   c4_queue_multiplicity_and_removal.2 netQuiet cPairsA cIpA
      ⟨[cIpA], cFsA, 0, []⟩
      ⟨[], cFsA, 0, [Event.skipExisting cIpA, Event.removed cIpA]⟩
      rfl (by decide)⟩

/-! ### Claim C7 -/

/-- The download loop only grows the filesystem: existing files survive. -/
lemma downloadFiles_fs_mono (net : Net) (j an n : Str) :
    ∀ (files : List Str) (s : RobotState),
      fsExists s.fs n = true →
      fsExists (stateOf (downloadFiles net j an files s)).fs n = true := by
  intro files
  induction files with
  | nil => intro s h; exact h
  | cons f rest ih =>
    intro s h
    simp only [downloadFiles]
    cases ho : net.get s.calls with
    | transportError => exact h
    | response b c =>
      exact ih _ (fsExists_fsAppendEntry_mono an n (f, c) s.fs h)

/-- The download loop for target `j` adds no probe or fetch events for a
different target `ip`. -/
lemma downloadFiles_no_probes (net : Net) (j an ip : Str)
    (hip : (j == ip) = false) :
    ∀ (files : List Str) (s : RobotState),
      s.trace.any (probesIp ip) = false →
      (stateOf (downloadFiles net j an files s)).trace.any (probesIp ip)
        = false := by
  intro files
  induction files with
  | nil => intro s h; exact h
  | cons f rest ih =>
    intro s h
    simp only [downloadFiles]
    cases ho : net.get s.calls with
    | transportError =>
      show (s.trace ++ [Event.getReq j f .transportError]).any (probesIp ip)
        = false
      simp [List.any_append, h, probesIp, hip]
    | response b c =>
      refine ih _ ?_
      show (s.trace ++ [Event.getReq j f (.response b c)]).any (probesIp ip)
        = false
      simp [List.any_append, h, probesIp, hip]

/-- Appending non-probe events keeps a trace probe-free. -/
lemma any_append_false (tr u : List Event) (ip : Str)
    (h1 : tr.any (probesIp ip) = false) (h2 : u.any (probesIp ip) = false) :
    (tr ++ u).any (probesIp ip) = false := by
  rw [List.any_append, h1, h2]
  rfl

/-- One loop-body execution (for any examined target `j`) preserves both the
existence of target `ip`'s archive and the absence of probe/fetch events for
`ip`, when `ip`'s archive already exists. -/
lemma processIp_pres (net : Net) (pairs : List (Str × Str)) (ip host j : Str)
    (s : RobotState)
    (hd : dictLookup pairs ip = some host)
    (hex : fsExists s.fs (archive_filename ip host) = true)
    (hpr : s.trace.any (probesIp ip) = false) :
    fsExists (stateOf (processIp net pairs j s)).fs (archive_filename ip host)
      = true ∧
    (stateOf (processIp net pairs j s)).trace.any (probesIp ip) = false := by
  by_cases hji : j = ip
  · subst hji
    have hdj : dictLookup pairs j = some host := hd
    simp only [processIp, hdj, hex, if_true]
    refine ⟨hex, ?_⟩
    exact any_append_false _ _ _ hpr
      (by simp only [List.any_cons, List.any_nil, Bool.or_false, probesIp])
  · have hjib : (j == ip) = false := by simp [hji]
    unfold processIp
    split
    next => exact ⟨hex, hpr⟩
    next host2 heq2 =>
      split
      next hex2 =>
        refine ⟨hex, ?_⟩
        exact any_append_false _ _ _ hpr
          (by simp only [List.any_cons, List.any_nil, Bool.or_false, probesIp])
      next hex2 =>
        split
        next =>
          refine ⟨hex, ?_⟩
          exact any_append_false _ _ _ hpr
            (by simp only [List.any_cons, List.any_nil, Bool.or_false,
              probesIp, hjib])
        next =>
          refine ⟨hex, ?_⟩
          exact any_append_false _ _ _ hpr
            (by simp only [List.any_cons, List.any_nil, Bool.or_false,
              probesIp, hjib])
        next =>
          refine ⟨hex, ?_⟩
          exact any_append_false _ _ _ hpr
            (by simp only [List.any_cons, List.any_nil, Bool.or_false,
              probesIp, hjib])
        next hh2 =>
          have hpre : ((s.trace ++ [Event.headReq j .ok]).any (probesIp ip))
              = false := by
            simp [List.any_append, hpr, probesIp, hjib]
          have hm := downloadFiles_fs_mono net j (archive_filename j host2)
            (archive_filename ip host) DOWNLOAD_FILES
            { s with calls := s.calls + 1,
                     trace := s.trace ++ [.headReq j .ok] } hex
          have hp2 := downloadFiles_no_probes net j (archive_filename j host2)
            ip hjib DOWNLOAD_FILES
            { s with calls := s.calls + 1,
                     trace := s.trace ++ [.headReq j .ok] } hpre
          split
          next s2 hdl =>
            rw [hdl] at hm hp2
            exact ⟨hm, hp2⟩
          next s2 hdl =>
            rw [hdl] at hm hp2
            refine ⟨hm, ?_⟩
            show (s2.trace ++ [Event.removed j]).any (probesIp ip) = false
            simp only [List.any_append, Bool.or_eq_false_iff]
            exact ⟨hp2, by simp [probesIp]⟩

/-- A whole pass preserves the invariant of `processIp_pres`. -/
lemma runPassAux_pres (net : Net) (pairs : List (Str × Str)) (ip host : Str)
    (hd : dictLookup pairs ip = some host) :
    ∀ (fuel : Nat) (s : RobotState) (i : Nat),
      fsExists s.fs (archive_filename ip host) = true →
      s.trace.any (probesIp ip) = false →
      fsExists (stateOf (runPassAux net pairs fuel s i)).fs
        (archive_filename ip host) = true ∧
      (stateOf (runPassAux net pairs fuel s i)).trace.any (probesIp ip)
        = false := by
  intro fuel
  induction fuel with
  | zero => intro s i hex hpr; exact ⟨hex, hpr⟩
  | succ n ih =>
    intro s i hex hpr
    simp only [runPassAux]
    by_cases h : i < s.todo.length
    · rw [dif_pos h]
      cases hp : processIp net pairs (s.todo.get ⟨i, h⟩) s with
      | error s1 =>
        have h1 := processIp_pres net pairs ip host (s.todo.get ⟨i, h⟩) s
          hd hex hpr
        rw [hp] at h1
        exact h1
      | ok s1 =>
        have h1 := processIp_pres net pairs ip host (s.todo.get ⟨i, h⟩) s
          hd hex hpr
        rw [hp] at h1
        exact ih s1 (i + 1) h1.1 h1.2
    · rw [dif_neg h]
      exact ⟨hex, hpr⟩

/-- The whole scheduling loop never probes a target whose archive exists. -/
lemma runLoop_pres (net : Net) (pairs : List (Str × Str)) (ip host : Str)
    (hd : dictLookup pairs ip = some host) :
    ∀ (fuel : Nat) (s : RobotState) (r : Except RobotState RobotState),
      fsExists s.fs (archive_filename ip host) = true →
      s.trace.any (probesIp ip) = false →
      runLoop net pairs fuel s = some r →
      (stateOf r).trace.any (probesIp ip) = false := by
  intro fuel
  induction fuel with
  | zero => intro s r hex hpr h; exact absurd h (by simp [runLoop])
  | succ n ih =>
    intro s r hex hpr h
    simp only [runLoop] at h
    by_cases he : s.todo.isEmpty = true
    · rw [if_pos he] at h
      simp only [Option.some.injEq] at h
      rw [← h]
      exact hpr
    · rw [if_neg he] at h
      cases hp : runPass net pairs s with
      | error s1 =>
        rw [hp] at h
        simp only [Option.some.injEq] at h
        rw [← h]
        have h1 := runPassAux_pres net pairs ip host hd s.todo.length s 0 hex hpr
        rw [show runPassAux net pairs s.todo.length s 0 = .error s1 from hp]
          at h1
        exact h1.2
      | ok s1 =>
        rw [hp] at h
        have h1 := runPassAux_pres net pairs ip host hd s.todo.length s 0 hex hpr
        rw [show runPassAux net pairs s.todo.length s 0 = .ok s1 from hp] at h1
        refine ih { s1 with trace := s1.trace ++ [.slept] } r h1.1 ?_ h
        show (s1.trace ++ [Event.slept]).any (probesIp ip) = false
        exact any_append_false _ _ _ h1.2 rfl

/-- C7: a target whose archive file exists before it is first examined is
never probed (no HEAD) and never fetched (no GET) anywhere in the run,
whether the run returns 0 or crashes; and on its first examination it is
removed from the queue unconditionally, with only the existence check and the
removal as events. -/
theorem c7_existing_archive_never_probed :
    (∀ (net : Net) (pairs : List (Str × Str)) (ip host : Str) (fuel : Nat)
        (s : RobotState) (r : Except RobotState RobotState),
        dictLookup pairs ip = some host →
        fsExists s.fs (archive_filename ip host) = true →
        s.trace.any (probesIp ip) = false →
        runLoop net pairs fuel s = some r →
        (stateOf r).trace.any (probesIp ip) = false) ∧
    (∀ (net : Net) (pairs : List (Str × Str)) (ip host : Str)
        (s : RobotState),
        dictLookup pairs ip = some host →
        fsExists s.fs (archive_filename ip host) = true →
        processIp net pairs ip s =
          .ok { s with todo := s.todo.erase ip,
                       trace := s.trace ++ [.skipExisting ip, .removed ip] }) := by
  constructor
  · intro net pairs ip host fuel s r hd hex hpr h
    exact runLoop_pres net pairs ip host hd fuel s r hex hpr h
  · intro net pairs ip host s hd hex
    simp [processIp, hd, hex]

/-- Witness for C7: in the two-pass run that drains the already-archived
target A, the final trace holds no HEAD or GET for A, and A's first
examination removed it with only the skip and removal events. -/
theorem c7_witness :
    ([Event.skipExisting cIpA, Event.removed cIpA, Event.slept].any
      (probesIp cIpA) = false) ∧
    processIp netQuiet cPairsA cIpA ⟨[cIpA], cFsA, 0, []⟩ =
      .ok ⟨[], cFsA, 0, [Event.skipExisting cIpA, Event.removed cIpA]⟩ :=
  ⟨c7_existing_archive_never_probed.1 netQuiet cPairsA cIpA cHostA 2
      ⟨[cIpA], cFsA, 0, []⟩
      (.ok ⟨[], cFsA, 0,
        [Event.skipExisting cIpA, Event.removed cIpA, Event.slept]⟩)
      (by decide) (by decide) rfl rfl,
   c7_existing_archive_never_probed.2 netQuiet cPairsA cIpA cHostA
      ⟨[cIpA], cFsA, 0, []⟩ (by decide) (by decide)⟩
